import Mathlib

/-!
Verification of the readerwriter package: a single-writer / many-reader
double-buffer primitive. The writer owns a private value, readers acquire
shared access to the published generation record, and Swap publishes the
writer value while draining the previous generation.

Two models are developed, both translated from src/readerwriter.go:

* a sequential model (`SeqState` and the `w…`/`r…` operations), where each
  API call runs to completion; Go panics become `Res.panicked` results and
  a call that would block forever becomes `Res.blocked`;
* a concurrent small-step model (`Sys`, `Step`), with one writer thread and
  a list of reader threads, each atomic action of the Go code one labelled
  transition.
-/

namespace ReaderWriter

/-- The two panic kinds of the package, matching the constants
`messageUsageOldReaderDetected` and `messageMultipleWritersDetected`. -/
inductive Err where
  | staleReaderUse
  | concurrentWriterMisuse
deriving DecidableEq, Repr

/-- The Go panic message attached to each error kind. -/
def Err.message : Err → String
  | .staleReaderUse => "usage of an old reader detected"
  | .concurrentWriterMisuse => "multiple writers detected"

/-- Outcome of one sequential API call: normal return, panic, or a call
that blocks forever (never returns) in a sequential execution. -/
inductive Res (α : Type u) where
  | ok : α → Res α
  | panicked : Err → Res α
  | blocked : Res α
deriving DecidableEq, Repr

/-- Sequential state of a `Writer[T]`. Generation records (`current[T]` in
the Go source) are stored in an append-only list: entry `c` is the pair of
the record value and the number of outstanding shared-lock holders of its
`RWMutex`. `liveIdx` is the index held by the atomic pointer `w.current`,
`writerValue` is the field of the same name, and `guard` tells whether
`unsyncWriterCheck` is currently locked (a writer-role call in progress). -/
structure SeqState (T : Type u) where
  writerValue : T
  recs : List (T × Nat)
  liveIdx : Nat
  guard : Bool
deriving Repr

/-- Decidable equality for sequential states. -/
instance {T : Type u} [DecidableEq T] : DecidableEq (SeqState T) := fun a b => by
  cases a
  cases b
  exact decidable_of_iff _ (by simp [SeqState.mk.injEq] at *; exact Iff.rfl)

/-- Shared-lock holder count of record `c` (0 when no such record). -/
def SeqState.holders {T : Type u} (s : SeqState T) (c : Nat) : Nat :=
  ((s.recs[c]?).map Prod.snd).getD 0

/-- Value of record `c`, when it exists. -/
def SeqState.recValue? {T : Type u} (s : SeqState T) (c : Nat) : Option T :=
  (s.recs[c]?).map Prod.fst

/-- Value of the live (published) generation record, when it exists. -/
def SeqState.liveValue? {T : Type u} (s : SeqState T) : Option T :=
  s.recValue? s.liveIdx

/-- Embedding of `New`: the published record holds `reader`, the
writer-side value is `writer`. -/
def seqNew {T : Type u} (reader writer : T) : SeqState T :=
  { writerValue := writer, recs := [(reader, 0)], liveIdx := 0, guard := false }

/-- Embedding of `Writer.Get`: try-lock the writer guard (panic on
failure), return the writer-side value, release the guard. -/
def wGet {T : Type u} (s : SeqState T) : Res T × SeqState T :=
  if s.guard then (.panicked .concurrentWriterMisuse, s)
  else (.ok s.writerValue, s)

/-- Embedding of `Writer.Set`: try-lock the writer guard (panic on
failure), replace the writer-side value, return the previous one. -/
def wSet {T : Type u} (v : T) (s : SeqState T) : Res T × SeqState T :=
  if s.guard then (.panicked .concurrentWriterMisuse, s)
  else (.ok s.writerValue, { s with writerValue := v })

/-- State after a completed swap whose drained live record held `lv`: the
writer value is published in a freshly appended record, the live reference
moves to it, and `lv` becomes the new writer-side value. -/
def swapPublish {T : Type u} (s : SeqState T) (lv : T) : SeqState T :=
  { writerValue := lv
    recs := s.recs ++ [(s.writerValue, 0)]
    liveIdx := s.recs.length
    guard := false }

/-- Embedding of `Writer.Swap` run to completion: guard check, publish a
fresh record holding the writer value, then drain the previously live
record (blocks forever — `Res.blocked` — if a shared holder remains, since
no concurrent thread can release it in a sequential execution) and absorb
its value as the new writer-side value. -/
def wSwap {T : Type u} (s : SeqState T) : Res Unit × SeqState T :=
  if s.guard then (.panicked .concurrentWriterMisuse, s)
  else
    match s.recs[s.liveIdx]? with
    | none => (.blocked, s)
    | some (lv, n) =>
      if n ≠ 0 then (.blocked, s)
      else (.ok (), swapPublish s lv)

/-- A `Reader[T]` handle: the index of the generation record whose
`RWMutex` it holds, the value observed at acquisition, and the `done`
flag. -/
structure Handle (T : Type u) where
  recIdx : Nat
  v : T
  done : Bool
deriving DecidableEq, Repr

/-- Embedding of `Writer.Reader` in the sequential model: with no
concurrent swap in progress, the first loop iteration succeeds — the
try-RLock on the live record succeeds and the reloaded pointer is
unchanged — so the call takes a shared lock on the live record and returns
a handle with a snapshot of its value. -/
def wReader {T : Type u} (s : SeqState T) : Res (Handle T) × SeqState T :=
  match s.recs[s.liveIdx]? with
  | none => (.blocked, s)
  | some (v, n) =>
    (.ok { recIdx := s.liveIdx, v := v, done := false },
     { s with recs := s.recs.set s.liveIdx (v, n + 1) })

/-- Embedding of `Reader.Get`: panic if the handle is done, otherwise
return the snapshot. The handle and writer state are returned unchanged to
make frame properties statable. -/
def rGet {T : Type u} (h : Handle T) (s : SeqState T) :
    Res T × Handle T × SeqState T :=
  if h.done then (.panicked .staleReaderUse, h, s)
  else (.ok h.v, h, s)

/-- Embedding of `Reader.Done`: panic if already done, otherwise set the
done flag and release the shared lock on the handle's record. -/
def rDone {T : Type u} (h : Handle T) (s : SeqState T) :
    Res Unit × Handle T × SeqState T :=
  if h.done then (.panicked .staleReaderUse, h, s)
  else
    (.ok (), { h with done := true },
     { s with recs :=
        match s.recs[h.recIdx]? with
        | none => s.recs
        | some (v, n) => s.recs.set h.recIdx (v, n - 1) })

/-- A concrete state whose writer guard is held, as left by an in-progress
writer-role call on a writer over `Nat`. -/
def guardedState : SeqState Nat :=
  { writerValue := 5, recs := [(7, 0)], liveIdx := 0, guard := true }

/-- A concrete not-yet-released reader handle over `Nat`. -/
def activeHandle : Handle Nat :=
  { recIdx := 0, v := 42, done := false }

/-- Value observed by a fresh `Reader().Get()` on state `s`. -/
def readValue {T : Type u} (s : SeqState T) : Res T :=
  match wReader s with
  | (.ok h, s1) => (rGet h s1).1
  | (.panicked e, _) => .panicked e
  | (.blocked, _) => .blocked

/-- Result of `n` successive `Reader.Get` calls on one handle, collecting
the results and threading the handle and state. -/
def rGetN {T : Type u} : Nat → Handle T → SeqState T → List (Res T) × Handle T × SeqState T
  | 0, h, s => ([], h, s)
  | n + 1, h, s =>
    let r := rGet h s
    let rest := rGetN n r.2.1 r.2.2
    (r.1 :: rest.1, rest.2)

/-- State-threading computations over a writer: one API call after
another, stopping at the first panic or block. -/
def RW (T : Type u) (α : Type v) :=
  SeqState T → Res α × SeqState T

/-- Sequencing of two computations: the second runs only if the first
returned normally. -/
def rwBind {T : Type u} {α : Type v} {β : Type w}
    (m : RW T α) (f : α → RW T β) : RW T β := fun s =>
  match m s with
  | (.ok a, s1) => f a s1
  | (.panicked e, s1) => (.panicked e, s1)
  | (.blocked, s1) => (.blocked, s1)

/-- One accumulation round of the writer loop from the package's test:
`Set(Get() ++ ws)` to accumulate the round's writes, `Swap()` to publish,
then take a `Reader`, copy its snapshot back into the writer side with
`Set`, and release the handle. -/
def roundStep {α : Type u} (ws : List α) : RW (List α) Unit :=
  rwBind wGet fun cur =>
  rwBind (wSet (cur ++ ws)) fun _ =>
  rwBind wSwap fun _ =>
  rwBind wReader fun h =>
  rwBind (fun s => ((rGet h s).1, (rGet h s).2.2)) fun snap =>
  rwBind (wSet snap) fun _ =>
  fun s => ((rDone h s).1, (rDone h s).2.2)

/-- Several accumulation rounds in sequence. -/
def runRounds {α : Type u} : List (List α) → RW (List α) Unit
  | [] => fun s => (.ok (), s)
  | ws :: rest => rwBind (roundStep ws) fun _ => runRounds rest

/-- Program counter of the writer with respect to `Swap()`: either no swap
is in progress, or the atomic pointer swap has happened but `Lock()` on
the old record has not been called yet, or the writer is inside `Lock()`
waiting for the old record's shared holders to drain. -/
inductive WPC where
  | idle
  | published (old : Nat)
  | draining (old : Nat)
deriving DecidableEq, Repr

/-- Program counter of one reader thread: either between `Reader()` calls,
or inside the acquisition loop (after the atomic load of the live
reference, or holding the shared lock before the recheck), or holding a
`Reader` handle with its snapshot and done flag. -/
inductive RPC (T : Type u) where
  | idle
  | loaded (c : Nat)
  | locked (c : Nat)
  | handle (c : Nat) (v : T) (done : Bool)
deriving DecidableEq, Repr

/-- Global state of the concurrent model: the writer-side value, the
store of generation records (value and shared-holder count), the index
held by the atomic pointer `w.current`, the writer's program counter, and
one program counter per reader thread. -/
structure Sys (T : Type u) where
  writerValue : T
  recs : List (T × Nat)
  live : Nat
  wpc : WPC
  threads : List (RPC T)
deriving Repr

/-- Initial state: `New(r0, w0)` with `nr` reader threads. -/
def Sys.init {T : Type u} (r0 w0 : T) (nr : Nat) : Sys T :=
  { writerValue := w0
    recs := [(r0, 0)]
    live := 0
    wpc := .idle
    threads := List.replicate nr .idle }

/-- Names of the atomic actions of the concurrent model. -/
inductive Label where
  | load (i : Nat)
  | lockOk (i : Nat)
  | lockFail (i : Nat)
  | checkOk (i : Nat)
  | checkFail (i : Nat)
  | done (i : Nat)
  | publish
  | lockCall
  | drain
deriving DecidableEq, Repr

/-- One atomic action of the Go code as a labelled transition. Reader
thread `i`: `load` is the atomic load `w.current.Load()`; `lockOk` /
`lockFail` are the two outcomes of `TryRLock` (it fails exactly while the
writer's `Lock()` on that record is pending); `checkOk` / `checkFail` are
the two outcomes of the reload-and-compare, failure releasing the shared
lock; `done` is `Reader.Done` on an unreleased handle. Writer: `publish`
is `w.current.Swap(...)` inside `Swap()` (new readers see the new record
at once), `lockCall` is the start of `oldReader.Lock()`, and `drain` is
its completion — enabled only with zero shared holders — followed by the
unlock and the absorption of the old value into the writer side. -/
inductive Step {T : Type u} : Label → Sys T → Sys T → Prop where
  | load (s : Sys T) (i : Nat)
      (ht : s.threads[i]? = some .idle) :
      Step (.load i) s { s with threads := s.threads.set i (.loaded s.live) }
  | lockOk (s : Sys T) (i c : Nat) (v : T) (n : Nat)
      (ht : s.threads[i]? = some (.loaded c))
      (hr : s.recs[c]? = some (v, n))
      (hw : s.wpc ≠ .draining c) :
      Step (.lockOk i) s
        { s with threads := s.threads.set i (.locked c), recs := s.recs.set c (v, n + 1) }
  | lockFail (s : Sys T) (i c : Nat)
      (ht : s.threads[i]? = some (.loaded c))
      (hw : s.wpc = .draining c) :
      Step (.lockFail i) s { s with threads := s.threads.set i .idle }
  | checkOk (s : Sys T) (i c : Nat) (v : T) (n : Nat)
      (ht : s.threads[i]? = some (.locked c))
      (hl : s.live = c)
      (hr : s.recs[c]? = some (v, n)) :
      Step (.checkOk i) s { s with threads := s.threads.set i (.handle c v false) }
  | checkFail (s : Sys T) (i c : Nat) (v : T) (n : Nat)
      (ht : s.threads[i]? = some (.locked c))
      (hl : s.live ≠ c)
      (hr : s.recs[c]? = some (v, n + 1)) :
      Step (.checkFail i) s
        { s with threads := s.threads.set i .idle, recs := s.recs.set c (v, n) }
  | done (s : Sys T) (i c : Nat) (v w : T) (n : Nat)
      (ht : s.threads[i]? = some (.handle c v false))
      (hr : s.recs[c]? = some (w, n + 1)) :
      Step (.done i) s
        { s with threads := s.threads.set i (.handle c v true), recs := s.recs.set c (w, n) }
  | publish (s : Sys T)
      (hw : s.wpc = .idle) :
      Step .publish s
        { s with recs := s.recs ++ [(s.writerValue, 0)], live := s.recs.length, wpc := .published s.live }
  | lockCall (s : Sys T) (old : Nat)
      (hw : s.wpc = .published old) :
      Step .lockCall s { s with wpc := .draining old }
  | drain (s : Sys T) (old : Nat) (ov : T)
      (hw : s.wpc = .draining old)
      (hr : s.recs[old]? = some (ov, 0)) :
      Step .drain s { s with writerValue := ov, wpc := .idle }

/-- Some atomic action relates the two states. -/
def SysStep {T : Type u} (a b : Sys T) : Prop :=
  ∃ l, Step l a b

/-- Reachability by interleaved atomic actions. -/
def Reach {T : Type u} (s0 s : Sys T) : Prop :=
  Relation.ReflTransGen SysStep s0 s

/-- Whether a reader program counter holds a shared lock on record `c`: it
does between a successful `TryRLock` and either the releasing recheck
failure or `Done()`. -/
def RPC.holdsRec {T : Type u} (c : Nat) : RPC T → Bool
  | .locked c2 => c2 == c
  | .handle c2 _ dn => c2 == c && !dn
  | _ => false

/-- Number of threads holding a shared lock on record `c`. -/
def Sys.holdersCount {T : Type u} (s : Sys T) (c : Nat) : Nat :=
  s.threads.countP (RPC.holdsRec c)

/-- A reader program counter only mentions allocated records. -/
def RPC.recBound {T : Type u} (len : Nat) : RPC T → Prop
  | .idle => True
  | .loaded c => c < len
  | .locked c => c < len
  | .handle c _ _ => c < len

/-- System invariant: the live reference and every thread's record are
allocated, each record's shared count equals the number of threads
holding it, and the record a swap is retiring is allocated. -/
def Inv {T : Type u} (s : Sys T) : Prop :=
  s.live < s.recs.length ∧
  (∀ (c : Nat) (v : T) (n : Nat), s.recs[c]? = some (v, n) → n = s.holdersCount c) ∧
  (∀ (i : Nat) (p : RPC T), s.threads[i]? = some p → RPC.recBound s.recs.length p) ∧
  (∀ old, s.wpc = .published old ∨ s.wpc = .draining old → old < s.recs.length)

/-- A concrete concurrent state over `Nat`: one reader thread holds an
unreleased handle on generation 0 while the writer, having published
generation 1, is draining generation 0. -/
def drainState : Sys Nat :=
  { writerValue := 20
    recs := [(10, 1), (20, 0)]
    live := 1
    wpc := .draining 0
    threads := [.handle 0 10 false] }

/-- A concrete concurrent state over `Nat`: one reader thread holds the
shared lock on the live generation, between `TryRLock` and the recheck. -/
def lockState : Sys Nat :=
  { writerValue := 20
    recs := [(10, 1)]
    live := 0
    wpc := .idle
    threads := [.locked 0] }

/-- One completed API call in a sequential execution: a step from one
writer state to the next, taken by a successful (non-panicking,
non-blocking) `Get`, `Set`, `Swap`, `Reader`, or `Done` on a
not-yet-released handle. -/
inductive SStep {T : Type u} : SeqState T → SeqState T → Prop where
  | get (s : SeqState T) (a : T) (h : (wGet s).1 = .ok a) :
      SStep s (wGet s).2
  | set (s : SeqState T) (v a : T) (h : (wSet v s).1 = .ok a) :
      SStep s (wSet v s).2
  | swap (s : SeqState T) (h : (wSwap s).1 = .ok ()) :
      SStep s (wSwap s).2
  | reader (s : SeqState T) (hd : Handle T) (h : (wReader s).1 = .ok hd) :
      SStep s (wReader s).2
  | done (s : SeqState T) (c : Nat) (v : T)
      (h : (rDone { recIdx := c, v := v, done := false } s).1 = .ok ()) :
      SStep s (rDone { recIdx := c, v := v, done := false } s).2.2

/-- C7: after `New(r0, w0)` and before any swap, the writer-side `Get`
returns `w0`, a fresh `Reader`'s `Get` yields `r0`, `Set v` returns the
previous writer-side value `w0` after which `Get` returns `v`, and neither
`Get` nor `Set` changes the published reader-side value. -/
theorem initial_writer_reader_values {T : Type u} (r0 w0 v : T) :
    (wGet (seqNew r0 w0)).1 = .ok w0 ∧
    (wGet (seqNew r0 w0)).2 = seqNew r0 w0 ∧
    (∃ h, (wReader (seqNew r0 w0)).1 = .ok h ∧ h.v = r0 ∧
      (rGet h (wReader (seqNew r0 w0)).2).1 = .ok r0) ∧
    (wSet v (seqNew r0 w0)).1 = .ok w0 ∧
    (wGet (wSet v (seqNew r0 w0)).2).1 = .ok v ∧
    (wSet v (seqNew r0 w0)).2.liveValue? = some r0 ∧
    (wGet (seqNew r0 w0)).2.liveValue? = some r0 :=
  ⟨rfl, rfl, ⟨{ recIdx := 0, v := r0, done := false }, rfl, rfl, rfl⟩,
   rfl, rfl, rfl, rfl⟩

/-- C4: a writer-role operation (`Get`, `Set`, `Swap`) panics with the
multiple-writers message exactly when the writer guard is already held at
entry, and such a failing call leaves the writer state (writer-side value
and live generation reference included) unchanged. -/
theorem writer_misuse_iff_guard_held {T : Type u} (s : SeqState T) (v : T) :
    ((wGet s).1 = .panicked .concurrentWriterMisuse ↔ s.guard = true) ∧
    ((wSet v s).1 = .panicked .concurrentWriterMisuse ↔ s.guard = true) ∧
    ((wSwap s).1 = .panicked .concurrentWriterMisuse ↔ s.guard = true) ∧
    (s.guard = true → (wGet s).2 = s ∧ (wSet v s).2 = s ∧ (wSwap s).2 = s) := by
  cases hg : s.guard with
  | true => simp [wGet, wSet, wSwap, hg]
  | false =>
    refine ⟨by simp [wGet, hg], by simp [wSet, hg], ?_, by simp [hg]⟩
    simp only [wSwap, hg, Bool.false_eq_true, if_false]
    rcases hrec : s.recs[s.liveIdx]? with _ | ⟨lv, n⟩
    · simp [hrec]
    · by_cases hn : n = 0 <;> simp [hrec, hn]

/-- C3: `Reader.Get` and `Reader.Done` panic with the stale-reader message
exactly when the handle is already done; the first `Done` succeeds and sets
the done flag, after which any `Get` or `Done` on the resulting handle
panics; the done flag never goes back to `false`; and a failing call
returns the handle and the writer state unchanged. -/
theorem stale_handle_use_iff_done {T : Type u} (h : Handle T) (s : SeqState T) :
    ((rGet h s).1 = .panicked .staleReaderUse ↔ h.done = true) ∧
    ((rDone h s).1 = .panicked .staleReaderUse ↔ h.done = true) ∧
    (h.done = false →
      (rDone h s).1 = .ok () ∧
      (rDone h s).2.1.done = true ∧
      (∀ s2, (rGet (rDone h s).2.1 s2).1 = .panicked .staleReaderUse) ∧
      (∀ s2, (rDone (rDone h s).2.1 s2).1 = .panicked .staleReaderUse)) ∧
    ((rGet h s).2.1 = h) ∧
    ((rDone h s).2.1.done = true) ∧
    (h.done = true →
      rGet h s = (.panicked .staleReaderUse, h, s) ∧
      rDone h s = (.panicked .staleReaderUse, h, s)) := by
  cases hd : h.done <;> simp [rGet, rDone, hd]

/-- C1: from any quiescent state (guard free, live record drained),
`Set(v)` followed by a completed `Swap()` makes a subsequent
`Reader().Get()` return `v`, and the writer-side `Get()` right after the
swap returns the value `lv` that was published before the swap; in
particular after `New([42], [-1])` and a `Swap()` with no prior `Set`, a
new reader sees `[-1]` and the writer-side `Get` returns `[42]`. -/
theorem set_swap_publishes_and_absorbs :
    (∀ (T : Type u) (s : SeqState T) (v lv : T),
      s.guard = false →
      s.recs[s.liveIdx]? = some (lv, 0) →
      (wSwap (wSet v s).2).1 = .ok () ∧
      readValue (wSwap (wSet v s).2).2 = .ok v ∧
      (wGet (wSwap (wSet v s).2).2).1 = .ok lv) ∧
    ((wSwap (seqNew ([42] : List Int) [-1])).1 = .ok () ∧
     readValue (wSwap (seqNew ([42] : List Int) [-1])).2 = .ok [-1] ∧
     (wGet (wSwap (seqNew ([42] : List Int) [-1])).2).1 = .ok [42]) := by
  constructor
  · intro T s v lv hg hlv
    have hset : (wSet v s).2 = { s with writerValue := v } := by simp [wSet, hg]
    rw [hset]
    simp only [wSwap, swapPublish, wGet, readValue, wReader, rGet, hg, hlv,
      Bool.false_eq_true, if_false, ne_eq, not_true_eq_false,
      List.getElem?_concat_length]
    simp
  · exact ⟨rfl, rfl, rfl⟩

/-- C1 witness: the general statement applied at a concrete quiescent
state over `Nat`. -/
theorem set_swap_publishes_and_absorbs_witness :
    (seqNew (1 : Nat) 2).guard = false ∧
    (seqNew (1 : Nat) 2).recs[(seqNew (1 : Nat) 2).liveIdx]? = some (1, 0) ∧
    ((wSwap (wSet 5 (seqNew (1 : Nat) 2)).2).1 = .ok () ∧
     readValue (wSwap (wSet 5 (seqNew (1 : Nat) 2)).2).2 = .ok 5 ∧
     (wGet (wSwap (wSet 5 (seqNew (1 : Nat) 2)).2).2).1 = .ok 1) :=
  ⟨rfl, rfl, set_swap_publishes_and_absorbs.1 Nat (seqNew 1 2) 5 1 rfl rfl⟩

/-- C4 witness: on a concrete state whose writer guard is held, the three
writer-role operations leave the state unchanged (each also panics, by the
iff conjuncts evaluated at this state). -/
theorem writer_misuse_iff_guard_held_witness :
    guardedState.guard = true ∧
    ((wGet guardedState).2 = guardedState ∧
     (wSet 9 guardedState).2 = guardedState ∧
     (wSwap guardedState).2 = guardedState) :=
  ⟨rfl, (writer_misuse_iff_guard_held guardedState 9).2.2.2 rfl⟩

/-- C3 witness: on a concrete active handle, the first `Done` succeeds and
any later `Get` or `Done` on the released handle panics with the
stale-reader error. -/
theorem stale_handle_use_iff_done_witness :
    activeHandle.done = false ∧
    (rDone activeHandle (seqNew 0 1)).1 = .ok () ∧
    (rGet (rDone activeHandle (seqNew 0 1)).2.1 (seqNew 0 1)).1 =
      .panicked .staleReaderUse ∧
    (rDone (rDone activeHandle (seqNew 0 1)).2.1 (seqNew 0 1)).1 =
      .panicked .staleReaderUse :=
  ⟨rfl,
   ((stale_handle_use_iff_done activeHandle (seqNew 0 1)).2.2.1 rfl).1,
   ((stale_handle_use_iff_done activeHandle (seqNew 0 1)).2.2.1 rfl).2.2.1 (seqNew 0 1),
   ((stale_handle_use_iff_done activeHandle (seqNew 0 1)).2.2.1 rfl).2.2.2 (seqNew 0 1)⟩

/-- One accumulation round from a quiescent state publishes the previous
writer value extended by the round's writes, and leaves a quiescent state
whose writer-side copy equals the published value. -/
theorem roundStep_clean {α : Type u} (ws p w : List α) (s : SeqState (List α))
    (hg : s.guard = false) (hlv : s.recs[s.liveIdx]? = some (p, 0))
    (hw : s.writerValue = w) :
    ∃ s2, roundStep ws s = (.ok (), s2) ∧
      s2.guard = false ∧
      s2.recs[s2.liveIdx]? = some (w ++ ws, 0) ∧
      s2.writerValue = w ++ ws := by
  have hrun : roundStep ws s =
      (.ok (), { writerValue := w ++ ws, recs := ((s.recs ++ [(w ++ ws, 0)]).set s.recs.length (w ++ ws, 1)).set s.recs.length (w ++ ws, 0), liveIdx := s.recs.length, guard := false }) := by
    simp [roundStep, rwBind, wGet, wSet, wSwap, swapPublish, wReader, rGet, rDone,
      hg, hlv, hw, List.getElem?_concat_length, List.getElem?_set_eq_of_lt,
      Nat.lt_succ_self]
  refine ⟨_, hrun, rfl, ?_, rfl⟩
  simp [List.getElem?_set_eq_of_lt, Nat.lt_succ_self]

/-- Several accumulation rounds starting from a state whose writer-side
copy already equals the published value extend both by the concatenation
of all the rounds' writes. -/
theorem runRounds_synced {α : Type u} (wss : List (List α)) :
    ∀ (s : SeqState (List α)) (x : List α),
      s.guard = false → s.recs[s.liveIdx]? = some (x, 0) →
      s.writerValue = x →
      ∃ s2, runRounds wss s = (.ok (), s2) ∧ s2.guard = false ∧
        s2.recs[s2.liveIdx]? = some (x ++ wss.flatten, 0) ∧
        s2.writerValue = x ++ wss.flatten := by
  induction wss with
  | nil =>
    intro s x hg hlv hw
    exact ⟨s, rfl, hg, by simpa using hlv, by simpa using hw⟩
  | cons ws rest ih =>
    intro s x hg hlv hw
    obtain ⟨s1, hstep, hg1, hlv1, hw1⟩ := roundStep_clean ws x x s hg hlv hw
    obtain ⟨s2, hrun, hg2, hlv2, hw2⟩ := ih s1 (x ++ ws) hg1 hlv1 hw1
    refine ⟨s2, ?_, hg2, by simpa [List.append_assoc] using hlv2,
      by simpa [List.append_assoc] using hw2⟩
    simp [runRounds, rwBind, hstep, hrun]

/-- C6: starting from `New(r0, w0)` and running at least one accumulation
round (each round: `Set(Get() ++ ws)`, `Swap()`, copy the reader snapshot
back with `Set`, `Done()`), the run succeeds and afterwards the published
value and the writer-side copy are exactly the initial writer value
followed by the writes of all rounds in order — no write lost, none
duplicated. -/
theorem roundtrip_preserves_all_writes {α : Type u}
    (r0 w0 : List α) (wss : List (List α)) (hne : wss ≠ []) :
    ∃ s2, runRounds wss (seqNew r0 w0) = (.ok (), s2) ∧
      s2.liveValue? = some (w0 ++ wss.flatten) ∧
      s2.writerValue = w0 ++ wss.flatten := by
  rcases wss with _ | ⟨ws, rest⟩
  · exact absurd rfl hne
  obtain ⟨s1, hstep, hg1, hlv1, hw1⟩ :=
    roundStep_clean ws r0 w0 (seqNew r0 w0) rfl rfl rfl
  obtain ⟨s2, hrun, hg2, hlv2, hw2⟩ := runRounds_synced rest s1 (w0 ++ ws) hg1 hlv1 hw1
  refine ⟨s2, ?_, ?_, by simpa [List.append_assoc] using hw2⟩
  · simp [runRounds, rwBind, hstep, hrun]
  · unfold SeqState.liveValue? SeqState.recValue?
    rw [hlv2]
    simp [List.append_assoc]

/-- C6 witness: two concrete rounds writing `[1]` then `[2, 3]` from an
empty initial state publish exactly `[1, 2, 3]`. -/
theorem roundtrip_preserves_all_writes_witness :
    (([[1], [2, 3]] : List (List Nat)) ≠ []) ∧
    (∃ s2, runRounds [[1], [2, 3]] (seqNew ([] : List Nat) []) = (.ok (), s2) ∧
      s2.liveValue? = some [1, 2, 3] ∧ s2.writerValue = [1, 2, 3]) :=
  ⟨by decide, by
    simpa using roundtrip_preserves_all_writes ([] : List Nat) [] [[1], [2, 3]]
      (by decide)⟩

/-- C10: on an active handle (done flag still `false`), `Reader.Get`
succeeds with the snapshot and modifies nothing — the handle and the
writer state (locks included) are returned unchanged — so any number `n`
of consecutive `Get` calls all succeed and all return the same snapshot. -/
theorem reader_get_pure_frame {T : Type u} (h : Handle T) (s : SeqState T)
    (n : Nat) (hd : h.done = false) :
    rGet h s = (.ok h.v, h, s) ∧
    rGetN n h s = (List.replicate n (.ok h.v), h, s) := by
  have h1 : rGet h s = (.ok h.v, h, s) := by simp [rGet, hd]
  refine ⟨h1, ?_⟩
  induction n with
  | zero => simp [rGetN]
  | succ k ih => simp [rGetN, h1, ih, List.replicate_succ]

/-- C10 witness: three `Get` calls on a concrete active handle all succeed
with the same snapshot, leaving handle and state unchanged. -/
theorem reader_get_pure_frame_witness :
    (Handle.done { recIdx := 0, v := (5 : Nat), done := false } = false) ∧
    rGetN 3 { recIdx := 0, v := (5 : Nat), done := false } (seqNew 1 2) =
      (List.replicate 3 (.ok 5), { recIdx := 0, v := 5, done := false }, seqNew 1 2) :=
  ⟨rfl, (reader_get_pure_frame { recIdx := 0, v := (5 : Nat), done := false }
    (seqNew 1 2) 3 rfl).2⟩

/-- The writer-side `Get` never changes the state. -/
theorem wGet_snd {T : Type u} (s : SeqState T) : (wGet s).2 = s := by
  unfold wGet
  split <;> rfl

/-- The writer-side `Set` either leaves the state unchanged (guard held)
or replaces exactly the writer-side value. -/
theorem wSet_snd {T : Type u} (v : T) (s : SeqState T) :
    (wSet v s).2 = s ∨ (wSet v s).2 = { s with writerValue := v } := by
  unfold wSet
  split
  · exact Or.inl rfl
  · exact Or.inr rfl

/-- Inversion of a completed `Swap`: the guard was free, the live record
was drained, and the result publishes the writer value in a freshly
appended record while absorbing the old live value. -/
theorem wSwap_ok_inv {T : Type u} {s : SeqState T} (h : (wSwap s).1 = .ok ()) :
    s.guard = false ∧ ∃ lv, s.recs[s.liveIdx]? = some (lv, 0) ∧
      wSwap s = (.ok (), swapPublish s lv) := by
  unfold wSwap at h ⊢
  cases hg : s.guard with
  | true => simp [hg] at h
  | false =>
    simp only [hg, Bool.false_eq_true, if_false] at h ⊢
    rcases hrec : s.recs[s.liveIdx]? with _ | ⟨lv, n⟩
    · simp [hrec] at h
    · simp only [hrec] at h ⊢
      by_cases hn : n = 0
      · subst hn
        refine ⟨by simp [hg], lv, rfl, by simp⟩
      · simp [hn] at h

/-- A `Swap` that does not complete (guard held, or readers outstanding)
leaves the state unchanged. -/
theorem wSwap_not_ok_snd {T : Type u} (s : SeqState T)
    (h : (wSwap s).1 ≠ .ok ()) : (wSwap s).2 = s := by
  unfold wSwap at h ⊢
  cases hg : s.guard with
  | true => simp [hg]
  | false =>
    simp only [hg, Bool.false_eq_true, if_false] at h ⊢
    rcases hrec : s.recs[s.liveIdx]? with _ | ⟨lv, n⟩
    · simp [hrec]
    · by_cases hn : n = 0
      · subst hn
        simp [hrec] at h
      · simp [hrec, hn]

/-- A `Reader` call leaves the state unchanged except for taking one more
shared hold on the live record. -/
theorem wReader_snd {T : Type u} (s : SeqState T) :
    (wReader s).2 = s ∨ ∃ v n, s.recs[s.liveIdx]? = some (v, n) ∧
      (wReader s).2 = { s with recs := s.recs.set s.liveIdx (v, n + 1) } := by
  unfold wReader
  rcases hrec : s.recs[s.liveIdx]? with _ | ⟨v, n⟩
  · exact Or.inl rfl
  · exact Or.inr ⟨v, n, rfl, rfl⟩

/-- A `Done` call leaves the state unchanged except for releasing one
shared hold on the handle's record. -/
theorem rDone_snd {T : Type u} (h : Handle T) (s : SeqState T) :
    (rDone h s).2.2 = s ∨ ∃ v n, s.recs[h.recIdx]? = some (v, n) ∧
      (rDone h s).2.2 = { s with recs := s.recs.set h.recIdx (v, n - 1) } := by
  unfold rDone
  split
  · exact Or.inl rfl
  · rcases hrec : s.recs[h.recIdx]? with _ | ⟨v, n⟩
    · exact Or.inl rfl
    · exact Or.inr ⟨v, n, rfl, rfl⟩

/-- Changing only the holder count of one record never changes the
published value. -/
theorem liveValue?_set_same {T : Type u} (s : SeqState T) (c : Nat) (v : T)
    (n m : Nat) (hc : s.recs[c]? = some (v, n)) :
    SeqState.liveValue? { s with recs := s.recs.set c (v, m) } = s.liveValue? := by
  unfold SeqState.liveValue? SeqState.recValue?
  dsimp only
  by_cases hcl : c = s.liveIdx
  · subst hcl
    rw [List.getElem?_set_eq_of_lt _ (List.getElem?_eq_some.mp hc).1, hc]
    rfl
  · rw [List.getElem?_set_ne hcl]

/-- A sequential step keeps the live reference inside the record store. -/
theorem sstep_preserves_bound {T : Type u} {a b : SeqState T} (h : SStep a b)
    (hb : a.liveIdx < a.recs.length) : b.liveIdx < b.recs.length := by
  cases h with
  | get x hok => rw [wGet_snd]; exact hb
  | set v x hok =>
    rcases wSet_snd v a with h2 | h2 <;> rw [h2] <;> exact hb
  | swap hok =>
    obtain ⟨-, lv, -, heq⟩ := wSwap_ok_inv hok
    rw [heq]
    simp [swapPublish]
  | reader hd hok =>
    rcases wReader_snd a with h2 | ⟨v, n, -, h2⟩ <;> rw [h2] <;> simp [hb]
  | done c v hok =>
    rcases rDone_snd { recIdx := c, v := v, done := false } a with h2 | ⟨w, n, -, h2⟩ <;>
      rw [h2] <;> simp [hb]

/-- C8: in every state reachable outside an in-progress call, the live
reference denotes an allocated generation record while the writer-side
value lives in the writer's own slot, outside the record store — the two
roles are held by disjoint storage; no operation but `Swap` changes the
published value or moves it into the writer side, and a completed `Swap`
is exactly the exchange: it publishes the writer value in a freshly
allocated record (never the record of a previous generation) and absorbs
the previously published value as the new writer-side value. -/
theorem swap_sole_mover {T : Type u} (r0 w0 : T) (s : SeqState T)
    (hreach : Relation.ReflTransGen SStep (seqNew r0 w0) s) :
    s.liveIdx < s.recs.length ∧
    ((wGet s).2.liveIdx = s.liveIdx ∧ (wGet s).2.liveValue? = s.liveValue? ∧
      (wGet s).2.writerValue = s.writerValue) ∧
    (∀ v, (wSet v s).2.liveIdx = s.liveIdx ∧ (wSet v s).2.liveValue? = s.liveValue? ∧
      ((wSet v s).2.writerValue = v ∨ (wSet v s).2.writerValue = s.writerValue)) ∧
    ((wReader s).2.liveIdx = s.liveIdx ∧ (wReader s).2.liveValue? = s.liveValue? ∧
      (wReader s).2.writerValue = s.writerValue) ∧
    (∀ h : Handle T, (rDone h s).2.2.liveIdx = s.liveIdx ∧
      (rDone h s).2.2.liveValue? = s.liveValue? ∧
      (rDone h s).2.2.writerValue = s.writerValue) ∧
    ((wSwap s).1 ≠ .ok () → (wSwap s).2 = s) ∧
    ((wSwap s).1 = .ok () →
      (wSwap s).2.liveIdx = s.recs.length ∧
      (wSwap s).2.liveIdx ≠ s.liveIdx ∧
      (wSwap s).2.liveValue? = some s.writerValue ∧
      some (wSwap s).2.writerValue = s.liveValue?) := by
  have hbound : s.liveIdx < s.recs.length := by
    induction hreach with
    | refl => simp [seqNew]
    | tail hsteps hstep ih => exact sstep_preserves_bound hstep ih
  refine ⟨hbound, ?_, ?_, ?_, ?_, wSwap_not_ok_snd s, ?_⟩
  · rw [wGet_snd]
    exact ⟨rfl, rfl, rfl⟩
  · intro v
    rcases wSet_snd v s with h2 | h2 <;> rw [h2]
    · exact ⟨rfl, rfl, Or.inr rfl⟩
    · exact ⟨rfl, rfl, Or.inl rfl⟩
  · rcases wReader_snd s with h2 | ⟨v, n, hrec, h2⟩ <;> rw [h2]
    · exact ⟨rfl, rfl, rfl⟩
    · exact ⟨rfl, liveValue?_set_same s s.liveIdx v n (n + 1) hrec, rfl⟩
  · intro h
    rcases rDone_snd h s with h2 | ⟨v, n, hrec, h2⟩ <;> rw [h2]
    · exact ⟨rfl, rfl, rfl⟩
    · exact ⟨rfl, liveValue?_set_same s h.recIdx v n (n - 1) hrec, rfl⟩
  · intro hok
    obtain ⟨-, lv, hrec, heq⟩ := wSwap_ok_inv hok
    rw [heq]
    refine ⟨rfl, Nat.ne_of_gt hbound, ?_, ?_⟩
    · unfold SeqState.liveValue? SeqState.recValue? swapPublish
      dsimp only
      rw [List.getElem?_concat_length]
      rfl
    · unfold SeqState.liveValue? SeqState.recValue? swapPublish
      dsimp only
      rw [hrec]
      rfl

/-- C8 witness: the statement evaluated at the initial state of a writer
over `Nat`, reachable in zero steps. -/
theorem swap_sole_mover_witness :
    (seqNew (10 : Nat) 20).liveIdx < (seqNew (10 : Nat) 20).recs.length ∧
    (wSwap (seqNew (10 : Nat) 20)).1 = .ok () ∧
    (wSwap (seqNew (10 : Nat) 20)).2.liveIdx ≠ (seqNew (10 : Nat) 20).liveIdx ∧
    (wSwap (seqNew (10 : Nat) 20)).2.liveValue? = some 20 ∧
    some (wSwap (seqNew (10 : Nat) 20)).2.writerValue = (seqNew (10 : Nat) 20).liveValue? :=
  have h := swap_sole_mover 10 20 (seqNew 10 20) Relation.ReflTransGen.refl
  ⟨h.1, rfl, (h.2.2.2.2.2.2 rfl).2.1, (h.2.2.2.2.2.2 rfl).2.2.1,
    (h.2.2.2.2.2.2 rfl).2.2.2⟩

/-- Updating one list entry shifts the `countP` by the predicate's change
on that entry. -/
theorem countP_set_some {α : Type u} (f : α → Bool) (l : List α) :
    ∀ (i : Nat) (p q : α), l[i]? = some p →
      (l.set i q).countP f + (if f p then 1 else 0) =
        l.countP f + (if f q then 1 else 0) := by
  induction l with
  | nil =>
    intro i p q h
    simp at h
  | cons a as ih =>
    intro i p q h
    cases i with
    | zero =>
      rw [List.getElem?_cons_zero] at h
      obtain rfl : a = p := Option.some.inj h
      simp only [List.set, List.countP_cons]
      cases hfp : f a <;> cases hfq : f q <;> simp [hfp, hfq]
    | succ j =>
      rw [List.getElem?_cons_succ] at h
      have h2 := ih j p q h
      simp only [List.set, List.countP_cons]
      cases hfa : f a <;> simp [hfa] <;> omega

/-- Reading an updated list yields either the new entry or an original
one. -/
theorem getElem?_set_cases {α : Type u} {l : List α} {i j : Nat} {q p : α}
    (h : (l.set i q)[j]? = some p) : p = q ∨ l[j]? = some p := by
  by_cases hij : i = j
  · subst hij
    by_cases hlt : i < l.length
    · rw [List.getElem?_set_eq_of_lt _ hlt] at h
      exact Or.inl (Option.some.inj h).symm
    · rw [List.set_eq_of_length_le (Nat.le_of_not_lt hlt)] at h
      exact Or.inr h
  · rw [List.getElem?_set_ne hij] at h
    exact Or.inr h

/-- A program counter bounded by `len` never holds a lock on record
`len`. -/
theorem holdsRec_false_of_recBound {T : Type u} {len : Nat} {p : RPC T}
    (hb : RPC.recBound len p) : RPC.holdsRec len p = false := by
  cases p with
  | idle => rfl
  | loaded c => rfl
  | locked c =>
    simp only [RPC.recBound] at hb
    simp [RPC.holdsRec, Nat.ne_of_lt hb]
  | handle c v dn =>
    simp only [RPC.recBound] at hb
    simp [RPC.holdsRec, Nat.ne_of_lt hb]

/-- Record bounds are monotone in the store length. -/
theorem recBound_mono {T : Type u} {len len2 : Nat} {p : RPC T}
    (h : len ≤ len2) (hb : RPC.recBound len p) : RPC.recBound len2 p := by
  cases p <;> simp only [RPC.recBound] at hb ⊢ <;> omega

/-- No thread of the initial state holds any lock. -/
theorem holdersCount_init {T : Type u} (r0 w0 : T) (nr c : Nat) :
    Sys.holdersCount (Sys.init r0 w0 nr) c = 0 := by
  unfold Sys.holdersCount Sys.init
  dsimp only
  refine List.countP_eq_zero.mpr fun a ha => ?_
  rw [List.eq_of_mem_replicate ha]
  simp [RPC.holdsRec]

/-- The invariant holds initially. -/
theorem inv_init {T : Type u} (r0 w0 : T) (nr : Nat) : Inv (Sys.init r0 w0 nr) := by
  refine ⟨by simp [Sys.init], ?_, ?_, ?_⟩
  · intro c v n h
    rw [holdersCount_init]
    match c with
    | 0 =>
      simp [Sys.init] at h
      omega
    | c + 1 =>
      simp [Sys.init] at h
  · intro i p h
    have hmem : p ∈ (Sys.init r0 w0 nr).threads := List.getElem?_mem h
    rw [show (Sys.init r0 w0 nr).threads = List.replicate nr RPC.idle from rfl] at hmem
    rw [List.eq_of_mem_replicate hmem]
    exact trivial
  · intro old h
    rcases h with h | h <;> simp [Sys.init] at h

/-- Every atomic action preserves the invariant. -/
theorem inv_step {T : Type u} {l : Label} {a b : Sys T} (hs : Step l a b)
    (ha : Inv a) : Inv b := by
  obtain ⟨halive, hacount, habound, hawpc⟩ := ha
  cases hs with
  | load _ i ht =>
    refine ⟨halive, ?_, ?_, hawpc⟩
    · intro c v n h
      have hc := hacount c v n h
      have hset := countP_set_some (RPC.holdsRec c) a.threads i .idle (.loaded a.live) ht
      simp [RPC.holdsRec] at hset
      unfold Sys.holdersCount at *
      dsimp only at *
      omega
    · intro j p h
      rcases getElem?_set_cases h with rfl | hold
      · exact halive
      · exact habound j p hold
  | lockOk _ i c v n ht hr hw =>
    have hclen : c < a.recs.length := (List.getElem?_eq_some.mp hr).1
    refine ⟨?_, ?_, ?_, ?_⟩
    · dsimp only
      rw [List.length_set]
      exact halive
    · intro c2 v2 n2 h2
      dsimp only at h2
      have hset := countP_set_some (RPC.holdsRec c2) a.threads i (.loaded c) (.locked c) ht
      unfold Sys.holdersCount at *
      dsimp only at *
      by_cases hcc : c = c2
      · subst hcc
        rw [List.getElem?_set_eq_of_lt _ hclen] at h2
        have hinj := Option.some.inj h2
        obtain ⟨rfl, rfl⟩ : v = v2 ∧ n + 1 = n2 :=
          ⟨congrArg Prod.fst hinj, congrArg Prod.snd hinj⟩
        have hc := hacount c v n hr
        simp [RPC.holdsRec] at hset
        omega
      · rw [List.getElem?_set_ne hcc] at h2
        have hc := hacount c2 v2 n2 h2
        simp [RPC.holdsRec, hcc] at hset
        omega
    · intro j p h
      dsimp only at h ⊢
      rcases getElem?_set_cases h with rfl | hold
      · simp only [RPC.recBound, List.length_set]
        exact hclen
      · exact recBound_mono (by simp [List.length_set]) (habound j p hold)
    · intro old h
      dsimp only at h ⊢
      rw [List.length_set]
      exact hawpc old h
  | lockFail _ i c ht hw =>
    refine ⟨halive, ?_, ?_, hawpc⟩
    · intro c2 v2 n2 h2
      have hc := hacount c2 v2 n2 h2
      have hset := countP_set_some (RPC.holdsRec c2) a.threads i (.loaded c) .idle ht
      simp [RPC.holdsRec] at hset
      unfold Sys.holdersCount at *
      dsimp only at *
      omega
    · intro j p h
      rcases getElem?_set_cases h with rfl | hold
      · exact trivial
      · exact habound j p hold
  | checkOk _ i c v n ht hl hr =>
    refine ⟨halive, ?_, ?_, hawpc⟩
    · intro c2 v2 n2 h2
      have hc := hacount c2 v2 n2 h2
      have hset := countP_set_some (RPC.holdsRec c2) a.threads i (.locked c)
        (.handle c v false) ht
      simp [RPC.holdsRec] at hset
      unfold Sys.holdersCount at *
      dsimp only at *
      omega
    · intro j p h
      rcases getElem?_set_cases h with rfl | hold
      · exact habound i (.locked c) ht
      · exact habound j p hold
  | checkFail _ i c v n ht hl hr =>
    have hclen : c < a.recs.length := (List.getElem?_eq_some.mp hr).1
    refine ⟨?_, ?_, ?_, ?_⟩
    · dsimp only
      rw [List.length_set]
      exact halive
    · intro c2 v2 n2 h2
      dsimp only at h2
      have hset := countP_set_some (RPC.holdsRec c2) a.threads i (.locked c) .idle ht
      unfold Sys.holdersCount at *
      dsimp only at *
      by_cases hcc : c = c2
      · subst hcc
        rw [List.getElem?_set_eq_of_lt _ hclen] at h2
        have hinj := Option.some.inj h2
        obtain ⟨rfl, rfl⟩ : v = v2 ∧ n = n2 :=
          ⟨congrArg Prod.fst hinj, congrArg Prod.snd hinj⟩
        have hc := hacount c v (n + 1) hr
        simp [RPC.holdsRec] at hset
        omega
      · rw [List.getElem?_set_ne hcc] at h2
        have hc := hacount c2 v2 n2 h2
        simp [RPC.holdsRec, hcc] at hset
        omega
    · intro j p h
      dsimp only at h ⊢
      rcases getElem?_set_cases h with rfl | hold
      · exact trivial
      · exact recBound_mono (by simp [List.length_set]) (habound j p hold)
    · intro old h
      dsimp only at h ⊢
      rw [List.length_set]
      exact hawpc old h
  | done _ i c v w n ht hr =>
    have hclen : c < a.recs.length := (List.getElem?_eq_some.mp hr).1
    refine ⟨?_, ?_, ?_, ?_⟩
    · dsimp only
      rw [List.length_set]
      exact halive
    · intro c2 v2 n2 h2
      dsimp only at h2
      have hset := countP_set_some (RPC.holdsRec c2) a.threads i (.handle c v false)
        (.handle c v true) ht
      unfold Sys.holdersCount at *
      dsimp only at *
      by_cases hcc : c = c2
      · subst hcc
        rw [List.getElem?_set_eq_of_lt _ hclen] at h2
        have hinj := Option.some.inj h2
        obtain ⟨rfl, rfl⟩ : w = v2 ∧ n = n2 :=
          ⟨congrArg Prod.fst hinj, congrArg Prod.snd hinj⟩
        have hc := hacount c w (n + 1) hr
        simp [RPC.holdsRec] at hset
        omega
      · rw [List.getElem?_set_ne hcc] at h2
        have hc := hacount c2 v2 n2 h2
        simp [RPC.holdsRec, hcc] at hset
        omega
    · intro j p h
      dsimp only at h ⊢
      rcases getElem?_set_cases h with rfl | hold
      · have hb : c < a.recs.length := habound i (.handle c v false) ht
        simp only [RPC.recBound, List.length_set]
        exact hb
      · exact recBound_mono (by simp [List.length_set]) (habound j p hold)
    · intro old h
      dsimp only at h ⊢
      rw [List.length_set]
      exact hawpc old h
  | publish _ hw =>
    refine ⟨?_, ?_, ?_, ?_⟩
    · dsimp only
      simp [List.length_append]
    · intro c v n h
      dsimp only at h
      unfold Sys.holdersCount
      dsimp only
      by_cases hc : c < a.recs.length
      · rw [List.getElem?_append_left hc] at h
        exact hacount c v n h
      · by_cases hce : c = a.recs.length
        · subst hce
          rw [List.getElem?_concat_length] at h
          have hinj := Option.some.inj h
          obtain ⟨-, rfl⟩ : a.writerValue = v ∧ 0 = n :=
            ⟨congrArg Prod.fst hinj, congrArg Prod.snd hinj⟩
          refine (List.countP_eq_zero.mpr ?_).symm
          intro p hp
          obtain ⟨j, hj⟩ := List.getElem?_of_mem hp
          have hb := habound j p hj
          simp [holdsRec_false_of_recBound hb]
        · have hnone : (a.recs ++ [(a.writerValue, 0)])[c]? = none := by
            apply List.getElem?_len_le
            simp only [List.length_append, List.length_cons, List.length_nil]
            omega
          rw [hnone] at h
          exact absurd h (by simp)
    · intro j p h
      dsimp only at h ⊢
      exact recBound_mono (by simp [List.length_append]) (habound j p h)
    · intro old h
      dsimp only at h ⊢
      rcases h with h | h
      · injection h with h
        subst h
        simp only [List.length_append, List.length_cons, List.length_nil]
        omega
      · exact WPC.noConfusion h
  | lockCall _ old hw =>
    refine ⟨halive, hacount, habound, ?_⟩
    · intro old2 h
      dsimp only at h
      rcases h with h | h
      · exact WPC.noConfusion h
      · injection h with h
        subst h
        exact hawpc old (Or.inl hw)
  | drain _ old ov hw hr =>
    refine ⟨halive, hacount, habound, ?_⟩
    · intro old2 h
      dsimp only at h
      rcases h with h | h <;> exact WPC.noConfusion h

/-- The invariant holds in every state reachable from a well-formed
state. -/
theorem inv_reach {T : Type u} {s0 s : Sys T} (h : Reach s0 s) (h0 : Inv s0) :
    Inv s := by
  induction h with
  | refl => exact h0
  | tail hsteps hstep ih =>
    obtain ⟨l2, hl⟩ := hstep
    exact inv_step hl ih

/-- C2: while the writer's `Swap()` is draining generation `c`, its
completion step is impossible as long as any thread still holds an
unreleased handle acquired on `c` — delaying that handle's `Done()` keeps
the swap blocked — and conversely, whenever the completion step fires,
every handle on the drained generation has already been released. -/
theorem swap_waits_for_prior_readers {T : Type u} (r0 w0 : T) (nr : Nat)
    (s : Sys T) (c : Nat)
    (hreach : Reach (Sys.init r0 w0 nr) s)
    (hwpc : s.wpc = .draining c) :
    (∀ (i : Nat) (v : T), s.threads[i]? = some (.handle c v false) →
      ∀ s2, ¬ Step .drain s s2) ∧
    (∀ s2, Step .drain s s2 →
      ∀ (i : Nat) (v : T), s.threads[i]? ≠ some (.handle c v false)) := by
  obtain ⟨halive, hcount, hbound, hwpcb⟩ := inv_reach hreach (inv_init r0 w0 nr)
  have hkey : ∀ s2, Step .drain s s2 →
      ∀ (i : Nat) (v : T), s.threads[i]? ≠ some (.handle c v false) := by
    intro s2 hstep i v ht
    cases hstep with
    | drain _ old ov hw2 hr2 =>
      rw [hwpc] at hw2
      injection hw2 with hoc
      subst hoc
      have h0 := hcount c ov 0 hr2
      have hpos : 0 < List.countP (RPC.holdsRec c) s.threads :=
        List.countP_pos_iff.mpr ⟨_, List.getElem?_mem ht, by simp [RPC.holdsRec]⟩
      unfold Sys.holdersCount at h0
      omega
  exact ⟨fun i v ht s2 hstep => hkey s2 hstep i v ht, hkey⟩

/-- C5: a reader thread that holds the shared lock (between `TryRLock`
success and the recheck) indeed holds it — the record's holder count is
positive; the acquisition succeeds exactly when the reloaded live
reference equals the locked record, returning a handle wrapping that
record and a snapshot of its value without touching the store; and when
the reloaded reference differs, the thread releases its shared hold and
goes back to the initial load; no other action is available to it. -/
theorem reader_acquisition_correct {T : Type u} (r0 w0 : T) (nr : Nat)
    (s : Sys T) (i c : Nat)
    (hreach : Reach (Sys.init r0 w0 nr) s)
    (ht : s.threads[i]? = some (.locked c)) :
    (∃ v k, s.recs[c]? = some (v, k) ∧ 1 ≤ k) ∧
    (∀ s2, Step (.checkOk i) s s2 → s.live = c ∧
      ∃ v k, s.recs[c]? = some (v, k) ∧
        s2.threads = s.threads.set i (.handle c v false) ∧ s2.recs = s.recs) ∧
    (∀ s2, Step (.checkFail i) s s2 → s.live ≠ c ∧
      ∃ v k, s.recs[c]? = some (v, k + 1) ∧
        s2.threads = s.threads.set i .idle ∧ s2.recs = s.recs.set c (v, k)) ∧
    (∀ s2, ¬ Step (.load i) s s2) ∧
    (∀ s2, ¬ Step (.lockOk i) s s2) ∧
    (∀ s2, ¬ Step (.lockFail i) s s2) ∧
    (∀ s2, ¬ Step (.done i) s s2) := by
  obtain ⟨halive, hcount, hbound, hwpcb⟩ := inv_reach hreach (inv_init r0 w0 nr)
  have hclen : c < s.recs.length := hbound i (.locked c) ht
  have hpos : 0 < List.countP (RPC.holdsRec c) s.threads :=
    List.countP_pos_iff.mpr ⟨_, List.getElem?_mem ht, by simp [RPC.holdsRec]⟩
  refine ⟨?_, ?_, ?_, ?_, ?_, ?_, ?_⟩
  · rcases hrec : s.recs[c]? with _ | ⟨v, k⟩
    · have h2 := List.getElem?_eq_none_iff.mp hrec
      omega
    · refine ⟨v, k, rfl, ?_⟩
      have hc := hcount c v k hrec
      unfold Sys.holdersCount at hc
      omega
  · intro s2 hstep
    cases hstep with
    | checkOk _ _ v n k ht2 hl hr =>
      rw [ht] at ht2
      injection ht2 with ht2
      injection ht2 with hcc
      subst hcc
      exact ⟨hl, n, k, hr, rfl, rfl⟩
  · intro s2 hstep
    cases hstep with
    | checkFail _ _ v n k ht2 hl hr =>
      rw [ht] at ht2
      injection ht2 with ht2
      injection ht2 with hcc
      subst hcc
      exact ⟨hl, n, k, hr, rfl, rfl⟩
  · intro s2 hstep
    cases hstep with
    | load _ _ ht2 =>
      rw [ht] at ht2
      exact RPC.noConfusion (Option.some.inj ht2)
  · intro s2 hstep
    cases hstep with
    | lockOk _ _ c2 v n ht2 hr hw =>
      rw [ht] at ht2
      exact RPC.noConfusion (Option.some.inj ht2)
  · intro s2 hstep
    cases hstep with
    | lockFail _ _ c2 ht2 hw =>
      rw [ht] at ht2
      exact RPC.noConfusion (Option.some.inj ht2)
  · intro s2 hstep
    cases hstep with
    | done _ _ c2 v w n ht2 hr =>
      rw [ht] at ht2
      exact RPC.noConfusion (Option.some.inj ht2)

/-- The draining state with a pending reader is reachable from the
initial state: the reader loads, locks and acquires a handle, then the
writer publishes and calls `Lock()` on the old generation. -/
theorem reach_drainState : Reach (Sys.init 10 20 1) drainState :=
  Relation.ReflTransGen.head ⟨_, Step.load _ 0 rfl⟩
    (Relation.ReflTransGen.head ⟨_, Step.lockOk _ 0 0 10 0 rfl rfl (by decide)⟩
      (Relation.ReflTransGen.head ⟨_, Step.checkOk _ 0 0 10 1 rfl rfl rfl⟩
        (Relation.ReflTransGen.head ⟨_, Step.publish _ rfl⟩
          (Relation.ReflTransGen.head ⟨_, Step.lockCall _ 0 rfl⟩
            Relation.ReflTransGen.refl))))

/-- The mid-acquisition state is reachable from the initial state: the
reader loads the live reference and its `TryRLock` succeeds. -/
theorem reach_lockState : Reach (Sys.init 10 20 1) lockState :=
  Relation.ReflTransGen.head ⟨_, Step.load _ 0 rfl⟩
    (Relation.ReflTransGen.head ⟨_, Step.lockOk _ 0 0 10 0 rfl rfl (by decide)⟩
      Relation.ReflTransGen.refl)

/-- C2 witness: in the concrete draining state with an unreleased handle
on the retiring generation, the swap-completion step is impossible. -/
theorem swap_waits_for_prior_readers_witness :
    drainState.wpc = WPC.draining 0 ∧
    drainState.threads[0]? = some (RPC.handle 0 10 false) ∧
    ∀ s2, ¬ Step Label.drain drainState s2 :=
  ⟨rfl, rfl,
    (swap_waits_for_prior_readers 10 20 1 drainState 0 reach_drainState rfl).1 0 10 rfl⟩

/-- C5 witness: in the concrete mid-acquisition state the locked record
exists and its shared-holder count is positive. -/
theorem reader_acquisition_correct_witness :
    lockState.threads[0]? = some (RPC.locked 0) ∧
    ∃ v k, lockState.recs[0]? = some (v, k) ∧ 1 ≤ k :=
  ⟨rfl, (reader_acquisition_correct 10 20 1 lockState 0 0 reach_lockState rfl).1⟩

/-- C9: the `Reader()` loop never blocks — in every reachable state a
reader thread inside the loop always has an enabled action, whatever the
writer is doing; when no swap is in progress a fresh call completes in a
single iteration (load, `TryRLock` success, recheck success); a `TryRLock`
failure can occur only while a swap is draining the loaded record; and the
live reference changes only at a swap's publication, so a recheck failure
too requires a concurrently executing `Swap()`. -/
theorem reader_lock_free {T : Type u} (r0 w0 : T) (nr : Nat) (s : Sys T)
    (i : Nat) (hreach : Reach (Sys.init r0 w0 nr) s) :
    (s.threads[i]? = some .idle → ∃ s2, Step (.load i) s s2) ∧
    (∀ c, s.threads[i]? = some (.loaded c) →
      ∃ lb s2, (lb = Label.lockOk i ∨ lb = Label.lockFail i) ∧ Step lb s s2) ∧
    (∀ c, s.threads[i]? = some (.locked c) →
      ∃ lb s2, (lb = Label.checkOk i ∨ lb = Label.checkFail i) ∧ Step lb s s2) ∧
    (s.wpc = .idle → s.threads[i]? = some .idle →
      ∃ s1 s2 s3 v, Step (.load i) s s1 ∧ Step (.lockOk i) s1 s2 ∧
        Step (.checkOk i) s2 s3 ∧ s3.threads[i]? = some (.handle s.live v false)) ∧
    (∀ s2, Step (.lockFail i) s s2 →
      ∃ c, s.wpc = .draining c ∧ s.threads[i]? = some (.loaded c)) ∧
    (∀ (t t2 : Sys T) (lb : Label), Step lb t t2 → t2.live ≠ t.live →
      lb = .publish) ∧
    (∀ t t2 : Sys T,
      Relation.ReflTransGen (fun x y => ∃ lb, lb ≠ Label.publish ∧ Step lb x y) t t2 →
      t2.live = t.live) := by
  obtain ⟨halive, hcount, hbound, hwpcb⟩ := inv_reach hreach (inv_init r0 w0 nr)
  refine ⟨?_, ?_, ?_, ?_, ?_, ?_, ?_⟩
  · intro ht
    exact ⟨_, Step.load s i ht⟩
  · intro c ht
    have hclen : c < s.recs.length := hbound i (.loaded c) ht
    rcases hrec : s.recs[c]? with _ | ⟨v, k⟩
    · have h2 := List.getElem?_eq_none_iff.mp hrec
      omega
    · by_cases hw : s.wpc = .draining c
      · exact ⟨_, _, Or.inr rfl, Step.lockFail s i c ht hw⟩
      · exact ⟨_, _, Or.inl rfl, Step.lockOk s i c v k ht hrec hw⟩
  · intro c ht
    have hclen : c < s.recs.length := hbound i (.locked c) ht
    have hpos : 0 < List.countP (RPC.holdsRec c) s.threads :=
      List.countP_pos_iff.mpr ⟨_, List.getElem?_mem ht, by simp [RPC.holdsRec]⟩
    rcases hrec : s.recs[c]? with _ | ⟨v, k⟩
    · have h2 := List.getElem?_eq_none_iff.mp hrec
      omega
    · by_cases hl : s.live = c
      · exact ⟨_, _, Or.inl rfl, Step.checkOk s i c v k ht hl hrec⟩
      · have hk := hcount c v k hrec
        unfold Sys.holdersCount at hk
        rcases k with _ | k2
        · omega
        · exact ⟨_, _, Or.inr rfl, Step.checkFail s i c v k2 ht hl hrec⟩
  · intro hwidle htidle
    have hilen : i < s.threads.length := (List.getElem?_eq_some.mp htidle).1
    rcases hrec : s.recs[s.live]? with _ | ⟨v, k⟩
    · have h2 := List.getElem?_eq_none_iff.mp hrec
      omega
    · have hstep1 : Step (.load i) s
          { s with threads := s.threads.set i (.loaded s.live) } :=
        Step.load s i htidle
      have hstep2 : Step (.lockOk i)
          { s with threads := s.threads.set i (.loaded s.live) }
          { s with threads := (s.threads.set i (.loaded s.live)).set i (.locked s.live), recs := s.recs.set s.live (v, k + 1) } := by
        refine Step.lockOk _ i s.live v k ?_ hrec ?_
        · show (s.threads.set i (.loaded s.live))[i]? = some (.loaded s.live)
          rw [List.getElem?_set_eq_of_lt _ hilen]
        · show s.wpc ≠ .draining s.live
          rw [hwidle]
          simp
      have hstep3 : Step (.checkOk i)
          { s with threads := (s.threads.set i (.loaded s.live)).set i (.locked s.live), recs := s.recs.set s.live (v, k + 1) }
          { s with threads := ((s.threads.set i (.loaded s.live)).set i (.locked s.live)).set i (.handle s.live v false), recs := s.recs.set s.live (v, k + 1) } := by
        refine Step.checkOk _ i s.live v (k + 1) ?_ rfl ?_
        · show ((s.threads.set i (.loaded s.live)).set i
            (.locked s.live))[i]? = some (.locked s.live)
          rw [List.getElem?_set_eq_of_lt]
          rw [List.length_set]
          exact hilen
        · show (s.recs.set s.live (v, k + 1))[s.live]? = some (v, k + 1)
          exact List.getElem?_set_eq_of_lt _ halive
      refine ⟨_, _, _, v, hstep1, hstep2, hstep3, ?_⟩
      show (((s.threads.set i (.loaded s.live)).set i (.locked s.live)).set i
        (.handle s.live v false))[i]? = some (.handle s.live v false)
      rw [List.getElem?_set_eq_of_lt]
      rw [List.length_set, List.length_set]
      exact hilen
  · intro s2 hstep
    cases hstep with
    | lockFail _ _ c ht hw => exact ⟨c, hw, ht⟩
  · intro t t2 lb hstep hneq
    cases hstep with
    | publish _ hw => rfl
    | load _ i2 ht => exact absurd rfl hneq
    | lockOk _ i2 c v n ht hr hw => exact absurd rfl hneq
    | lockFail _ i2 c ht hw => exact absurd rfl hneq
    | checkOk _ i2 c v n ht hl hr => exact absurd rfl hneq
    | checkFail _ i2 c v n ht hl hr => exact absurd rfl hneq
    | done _ i2 c v w n ht hr => exact absurd rfl hneq
    | lockCall _ old hw => exact absurd rfl hneq
    | drain _ old ov hw hr => exact absurd rfl hneq
  · intro t t2 htrace
    induction htrace with
    | refl => rfl
    | tail hsteps hstep ih =>
      obtain ⟨lb, hne, hstep⟩ := hstep
      cases hstep with
      | publish _ hw => exact absurd rfl hne
      | load _ i2 ht => exact ih
      | lockOk _ i2 c v n ht hr hw => exact ih
      | lockFail _ i2 c ht hw => exact ih
      | checkOk _ i2 c v n ht hl hr => exact ih
      | checkFail _ i2 c v n ht hl hr => exact ih
      | done _ i2 c v w n ht hr => exact ih
      | lockCall _ old hw => exact ih
      | drain _ old ov hw hr => exact ih

/-- C9 witness: from the initial state (no swap in progress) a reader
thread completes its acquisition in one three-step iteration. -/
theorem reader_lock_free_witness :
    (Sys.init (10 : Nat) 20 1).wpc = WPC.idle ∧
    (Sys.init (10 : Nat) 20 1).threads[0]? = some RPC.idle ∧
    ∃ s1 s2 s3 v, Step (Label.load 0) (Sys.init (10 : Nat) 20 1) s1 ∧
      Step (Label.lockOk 0) s1 s2 ∧ Step (Label.checkOk 0) s2 s3 ∧
      s3.threads[0]? = some (RPC.handle (Sys.init (10 : Nat) 20 1).live v false) :=
  ⟨rfl, rfl, (reader_lock_free 10 20 1 (Sys.init 10 20 1) 0
    Relation.ReflTransGen.refl).2.2.2.1 rfl rfl⟩

end ReaderWriter
